import Mathlib

/-!
Verification development for the FrameV4 natural-language program harness
of the UniversalDeepResearch backend (`backend/frame/harness4.py`,
`backend/frame/errands4.py`, `backend/frame/tidings.py`).

Modelling conventions:

* Python text is modelled as `List Char` (abbreviated `Chars`); the harness
  manipulates newline-delimited text, so line splitting is modelled for the
  `'\n'` terminator, which is the only terminator the code paths under
  verification produce.
* Python dicts are modelled as insertion-ordered association lists with
  unique keys maintained by `dictUpsert` (existing keys keep their slot,
  new keys are appended) - the observable behaviour of CPython dicts.
* External collaborators (the LM transport, the errand prompt files, the
  CPython `ast` parser, and `exec` of LM-authored code) are modelled as an
  `Oracles` record of pure functions; theorems quantify over the oracles,
  and concrete stub instances are used for counterexamples and witnesses,
  mirroring the spec's "LM stubbed to fixed replies" testing discipline.
* `FrameV4.process_message` contains a `yield`, so in Python it is a
  generator function; the model gives its run-to-completion semantics,
  which is what `generate_with_notifications` (the only caller in
  `backend/main.py`) executes by iterating it.  Exceptions are modelled by
  `Except`, with the harness state at raise time carried alongside, since
  Python attribute mutations persist past an exception.
-/

namespace UDR

abbrev Chars := List Char

def lbrace : Char := Char.ofNat 123

def rbrace : Char := Char.ofNat 125

/-- Python `str.strip()` (whitespace strip on both ends). -/
def pyStrip (s : Chars) : Chars :=
  ((s.dropWhile Char.isWhitespace).reverse.dropWhile Char.isWhitespace).reverse

/-- Prepend a character to the first piece of a line split. -/
def consHead (c : Char) : List Chars → List Chars
  | [] => [[c]]
  | p :: ps => (c :: p) :: ps

/-- Python `str.split("\n")`: every piece kept, including empty ones. -/
def splitSep : Chars → List Chars
  | [] => [[]]
  | c :: rest => if c = '\n' then [] :: splitSep rest else consHead c (splitSep rest)

/-- Drop a single trailing empty piece, if present. -/
def stripLastEmpty (ls : List Chars) : List Chars :=
  match ls.getLast? with
  | some [] => ls.dropLast
  | _ => ls

/-- Python `str.splitlines()` for newline-only text: like `split("\n")`
but a trailing newline does not contribute an empty final line. -/
def splitLines (s : Chars) : List Chars := stripLastEmpty (splitSep s)

/-- Python `sep.join(pieces)`. -/
def joinWith (sep : Chars) : List Chars → Chars
  | [] => []
  | [l] => l
  | l :: ls => l ++ sep ++ joinWith sep ls

/-- Python `"\n".join(pieces)`. -/
def joinNL : List Chars → Chars := joinWith ['\n']

/-- Python substring test `pat in s`. -/
def containsSub (pat : Chars) : Chars → Bool
  | [] => decide (pat = [])
  | c :: rest => pat.isPrefixOf (c :: rest) || containsSub pat rest

def pyReplaceFirstGo (pat rep : Chars) : Chars → Chars
  | [] => []
  | c :: rest =>
    if pat.isPrefixOf (c :: rest) then rep ++ rest.drop (pat.length - 1)
    else c :: pyReplaceFirstGo pat rep rest

/-- Python `s.replace(old, new, 1)`: replace the leftmost occurrence only
(an empty pattern prepends the replacement, as in CPython). -/
def pyReplaceFirst (s pat rep : Chars) : Chars :=
  if pat = [] then rep ++ s else pyReplaceFirstGo pat rep s

def pyReplaceAllGo (pat rep : Chars) : Chars → Nat → Chars
  | [], _ => []
  | _ :: rest, Nat.succ k => pyReplaceAllGo pat rep rest k
  | c :: rest, 0 =>
    if pat.isPrefixOf (c :: rest) then rep ++ pyReplaceAllGo pat rep rest (pat.length - 1)
    else c :: pyReplaceAllGo pat rep rest 0

/-- Python `s.replace(old, new)`: every non-overlapping occurrence, scanned
left to right, the replacement text not rescanned (an empty pattern
intersperses the replacement, as in CPython). -/
def pyReplaceAll (s pat rep : Chars) : Chars :=
  if pat = [] then rep ++ s.flatMap (fun c => c :: rep)
  else pyReplaceAllGo pat rep s 0

/-- A line whose stripped content is a code fence marker, as tested by
`FrameV4.sanitize_code`. -/
def isFenceLine (l : Chars) : Bool :=
  decide (pyStrip l = "```".data) || decide (pyStrip l = "```python".data)

/-- A line that strips to the empty string. -/
def isBlankLine (l : Chars) : Bool := decide (pyStrip l = [])

def dropHeadIf (p : Chars → Bool) : List Chars → List Chars
  | [] => []
  | l :: rest => if p l then rest else l :: rest

def dropLastIf (p : Chars → Bool) (ls : List Chars) : List Chars :=
  match ls.getLast? with
  | some l => if p l then ls.dropLast else ls
  | none => ls

/-- The line-list transformation of `FrameV4.sanitize_code`: drop a leading
and a trailing blank line (once each), then a leading and a trailing fence
line (once each). -/
def sanitizeLines (lines : List Chars) : List Chars :=
  dropLastIf isFenceLine (dropHeadIf isFenceLine (dropLastIf isBlankLine (dropHeadIf isBlankLine lines)))

/-- `FrameV4.sanitize_code`. -/
def sanitize_code (code : Chars) : Chars := joinNL (sanitizeLines (splitLines code))

/-- Runtime values living in the execution namespace, in tidings, and in
notifications.  `closure src` is the callable obtained by `exec`-compiling
the source text `src`; two callables are distinguished exactly by the
source they were compiled from. -/
inductive Value where
  | vint : Int → Value
  | vbool : Bool → Value
  | vstr : Chars → Value
  | closure : Chars → Value
  | vdict : List (Chars × Value) → Value

/-- `frame.tidings.Tiding`. -/
structure Tiding where
  natural_name : Chars
  python_name : Chars
  description : Chars
  content : Value

/-- `harness4.SkillV4`. -/
structure SkillV4 where
  name : Chars
  source_message : Chars
  python_name : Chars
  docstring : Chars
  code : Chars
deriving DecidableEq

/-- One top-level function descriptor as returned by
`FrameV4.extract_function_definitions`. -/
structure FuncDef where
  python_name : Chars
  args : List Chars
  docstring : Option Chars
  code : Chars
deriving DecidableEq

/-- The per-session mutable attributes of `FrameV4` that the claims are
about: the skill store, the tiding store, the shared execution namespace
(`self.globals`) and `last_mid`. -/
structure FrameState where
  skills : List (Chars × SkillV4)
  tidings : List (Chars × Tiding)
  globals : List (Chars × Value)
  last_mid : Int

/-- A streaming notification mapping. -/
abbrev Notif := List (Chars × Value)

/-- The observable behaviour of a `__generator` value: the notifications it
yields in order, and, when `err` is set, the exception it raises after the
last yield instead of stopping normally. -/
structure GenTrace where
  yields : List Notif
  err : Option Chars

/-- `errands4.Errand`: a prompt pair. -/
structure Errand where
  pre_prompt : Chars
  prompt : Chars

/-- External collaborators of the harness, as pure oracles:
`errandText d` is the prompt pair loaded from the errand file of
designation `d`; `client d pre prompt` is the LM completion returned by
the client of designation `d`; `parse` is CPython `ast.parse` followed by
the top-level `FunctionDef` walk of `extract_function_definitions`
(`none` when parsing raises); `execDefs code` is the set of top-level
bindings created by `exec`-ing a function-definition source; `execSnippet`
runs an invocation snippet against (globals, locals) returning the updated
locals or a raised exception; `execGen` additionally reads the
`__generator` binding the snippet must create. -/
structure Oracles where
  errandText : Chars → Errand
  client : Chars → Chars → Chars → Chars
  parse : Chars → Option (List FuncDef)
  execDefs : Chars → List (Chars × Value)
  execSnippet : Chars → List (Chars × Value) → List (Chars × Value) → Except Chars (List (Chars × Value))
  execGen : Chars → List (Chars × Value) → List (Chars × Value) → Except Chars GenTrace

/-- Python dict read `d[k]` / `d.get(k)`. -/
def dictGet {α : Type} : List (Chars × α) → Chars → Option α
  | [], _ => none
  | kv :: rest, key => if kv.1 = key then some kv.2 else dictGet rest key

/-- Python dict write `d[k] = v`: an existing key keeps its slot, a new key
is appended. -/
def dictUpsert {α : Type} : List (Chars × α) → Chars → α → List (Chars × α)
  | [], k, v => [(k, v)]
  | kv :: rest, k, v => if kv.1 = k then (k, v) :: rest else kv :: dictUpsert rest k v

/-- Write every binding of `l` into `d`, left to right. -/
def dictUpsertAll {α : Type} (d : List (Chars × α)) (l : List (Chars × α)) : List (Chars × α) :=
  l.foldl (fun acc kv => dictUpsert acc kv.1 kv.2) d

/-- The literal placeholder token for an argument name. -/
def placeholder (name : Chars) : Chars := lbrace :: (name ++ [rbrace])

/-- The substituted user prompt built by the loop of `Errand.run`:
`prompt_with_args = prompt_with_args.replace("{" + arg_name + "}", arg_value)`
for each argument in insertion order. -/
def Errand.substituted (e : Errand) (args : List (Chars × Chars)) : Chars :=
  args.foldl (fun p kv => pyReplaceAll p (placeholder kv.1) kv.2) e.prompt

/-- `Errand.run`: substitute the arguments into the prompt and return the
LM completion for the (pre-prompt, substituted prompt) pair. -/
def Errand.run (e : Errand) (lm : Chars → Chars → Chars) (args : List (Chars × Chars)) : Chars :=
  lm e.pre_prompt (e.substituted args)

/-- `MultipleChoiceErrand.run`: the first choice (in list order) occurring
as a substring of the raw completion, `none` when no choice occurs. -/
def MultipleChoiceErrand.run (e : Errand) (choices : List Chars) (lm : Chars → Chars → Chars)
    (args : List (Chars × Chars)) : Option Chars :=
  (choices.find? fun c => containsSub c (e.run lm args))

/-- The choice list of `MessageTypeErrand`. -/
def messageTypeChoices : List Chars :=
  (["code_skill", "routine_skill", "query_skill", "code", "routine", "query", "data"].map String.data)

/-- `self.allowed_message_types` as set in `FrameV4.process_message`. -/
def allowed_message_types : List Chars :=
  (["routine", "routine_skill", "query", "query_skill", "code", "code_skill", "data", "auto",
    "generating_routine"].map String.data)

def errClassification : Chars := ("Message type could not be determined for message".data)

def errEmpty : Chars := ("Empty message provided for instruction processing".data)

def errInvalidType : Chars := ("Invalid message type".data)

def errGenStream : Chars :=
  ("Generating routine messages must be processed with generate_not_return=True".data)

def errNotImpl : Chars := ("Message type not implemented yet".data)

def errDocstringNone : Chars := ("TypeError: can only concatenate str (not NoneType) to str".data)

def errVarsNotDict : Chars := ("AttributeError: __vars has no attribute items".data)

def errKeyType : Chars := ("KeyError: type".data)

def errModVarsNotDict : Chars := ("AttributeError: modified_vars has no attribute items".data)

/-- `FrameV4.decide_message_type`: run the multiple-choice `message_type`
errand and refuse a result that is `None` or outside the allowed set. -/
def decide_message_type (O : Oracles) (message : Chars) : Except Chars Chars :=
  match MultipleChoiceErrand.run (O.errandText ("message_type".data)) messageTypeChoices
      (O.client ("message_type".data)) [(("message".data), message)] with
  | none => .error errClassification
  | some t => if t ∈ allowed_message_types then .ok t else .error errClassification

/-- `FrameV4.extract_function_definitions`: parse the code with the `ast`
oracle and return the top-level function descriptors; a parse failure
yields the empty list. -/
def extract_function_definitions (parse : Chars → Option (List FuncDef)) (code : Chars) :
    List FuncDef :=
  (parse code).getD []

/-- Decimal rendering of a message id, as interpolated by the f-strings of
the harness. -/
def intStr (n : Int) : Chars := (toString n).data

/-- The docstring addendum appended to each synthesized skill. -/
def docstring_addendum (mid : Int) : Chars :=
  ("\n\nThis function was generated to fulfill the intent of the user message with message id ".data)
    ++ intStr mid ++ (".".data)

/-- Python `str(value)` as used when serializing tidings into prompts.  The
rendering of callables and dicts is abstracted; no claim depends on the
exact text, which only feeds the LM oracle. -/
def valueStr : Value → Chars
  | .vint n => (toString n).data
  | .vbool b => if b then ("True".data) else ("False".data)
  | .vstr s => s
  | .closure _ => ("<function>".data)
  | .vdict _ => ("<dict>".data)

/-- Tiding serialization `f"{k}: {v.content}  # {v.description}"` of
`process_message_code`. -/
def serializeTidingsColon (tds : List (Chars × Tiding)) : Chars :=
  joinNL (tds.map fun kv => kv.1 ++ (": ".data) ++ valueStr kv.2.content ++ ("  # ".data) ++ kv.2.description)

/-- Tiding serialization `f"{k} = {v.content}  # {v.description}"` of
`process_message_routine`. -/
def serializeTidingsEq (tds : List (Chars × Tiding)) : Chars :=
  joinNL (tds.map fun kv => kv.1 ++ (" = ".data) ++ valueStr kv.2.content ++ ("  # ".data) ++ kv.2.description)

/-- Skill serialization `f"function {k}\n---\n{v.docstring}"` joined by
blank lines, of `process_message_routine`. -/
def serializeSkills (sm : List (Chars × SkillV4)) : Chars :=
  joinWith ("\n\n".data) (sm.map fun kv => ("function ".data) ++ kv.1 ++ ("\n---\n".data) ++ kv.2.docstring)

/-- The variable-description parser of the code/routine pipelines: for each
line of the stripped raw output containing `#`, map the stripped text
before the first `#` to the stripped text after it. -/
def parseVarDescs (raw : Chars) : List (Chars × Chars) :=
  (splitLines (pyStrip raw)).foldl
    (fun d line =>
      if containsSub ("#".data) line then
        dictUpsert d (pyStrip (line.takeWhile (· ≠ '#'))) (pyStrip ((line.dropWhile (· ≠ '#')).drop 1))
      else d)
    []

/-- The synthesized-code text of a `code` message after the LM call, fence
stripping and the first-occurrence rename of `code` to
`message_<mid>_code` (harness4.py lines 414-430). -/
def code_synthesis_text (O : Oracles) (mid : Int) (message : Chars)
    (tidings : List (Chars × Tiding)) : Chars :=
  pyReplaceFirst
    (sanitize_code
      ((O.errandText ("message_code_processing".data)).run (O.client ("message_code_processing".data))
        [(("message".data), message), (("tidings".data), serializeTidingsColon tidings)]))
    ("code".data)
    (("message_".data) ++ intStr mid ++ ("_code".data))

/-- `FrameV4.process_message_code`: one principal skill with the docstring
addendum, an invocation snippet and a variable-description map; no
top-level function means no skill, no invocation, no descriptions.  A
`None` docstring makes the `str + None` concatenation raise. -/
def process_message_code (O : Oracles) (mid : Int) (message : Chars)
    (tidings : List (Chars × Tiding)) :
    Except Chars (List SkillV4 × Option Chars × Option (List (Chars × Chars))) :=
  match extract_function_definitions O.parse (code_synthesis_text O mid message tidings) with
  | [] => .ok ([], none, none)
  | func :: _ =>
    match func.docstring with
    | none => .error errDocstringNone
    | some ds =>
      let skill : SkillV4 :=
        ⟨func.python_name, message, func.python_name, ds ++ docstring_addendum mid,
          pyReplaceFirst func.code ds (ds ++ docstring_addendum mid)⟩
      let ser := serializeTidingsColon tidings
      let inv := (O.errandText ("message_code_call".data)).run (O.client ("message_code_call".data))
        [(("message".data), message), (("code".data), skill.code), (("tidings".data), ser)]
      let vdRaw := (O.errandText ("message_code_variables".data)).run
        (O.client ("message_code_variables".data))
        [(("message".data), message), (("code".data), skill.code), (("tidings".data), ser)]
      .ok ([skill], some inv, some (parseVarDescs vdRaw))

/-- Build one skill per extracted function, appending the docstring
addendum to each; a `None` docstring raises. -/
def buildSkills (message : Chars) (addendum : Chars) : List FuncDef → Except Chars (List SkillV4)
  | [] => .ok []
  | f :: rest =>
    match f.docstring with
    | none => .error errDocstringNone
    | some ds =>
      (buildSkills message addendum rest).map
        (fun sks =>
          ⟨f.python_name, message, f.python_name, ds ++ addendum,
            pyReplaceFirst f.code ds (ds ++ addendum)⟩ :: sks)

/-- `FrameV4.process_message_code_skill`: every top-level function becomes
a skill; no invocation, no descriptions. -/
def process_message_code_skill (O : Oracles) (mid : Int) (message : Chars) :
    Except Chars (List SkillV4) :=
  buildSkills message (docstring_addendum mid)
    (extract_function_definitions O.parse
      (sanitize_code
        ((O.errandText ("message_code_skill_processing".data)).run
          (O.client ("message_code_skill_processing".data)) [(("message".data), message)])))

/-- `FrameV4.process_message_routine` (shared by `routine` and
`generating_routine` via `is_generating_routine`). -/
def process_message_routine (O : Oracles) (mid : Int) (message : Chars)
    (tidings : List (Chars × Tiding)) (skillsMap : List (Chars × SkillV4)) (isGen : Bool) :
    Except Chars (List SkillV4 × Option Chars × Option (List (Chars × Chars))) :=
  let dProc := if isGen then ("message_generating_routine_processing".data)
    else ("message_routine_processing".data)
  let serT := serializeTidingsEq tidings
  let code :=
    pyReplaceFirst
      (sanitize_code
        ((O.errandText dProc).run (O.client dProc)
          [(("message".data), message), (("skills".data), serializeSkills skillsMap),
            (("tidings".data), serT)]))
      ("code".data)
      (("message_".data) ++ intStr mid ++ ("_routine_code".data))
  match extract_function_definitions O.parse code with
  | [] => .ok ([], none, none)
  | func :: _ =>
    match func.docstring with
    | none => .error errDocstringNone
    | some ds =>
      let skill : SkillV4 :=
        ⟨func.python_name, message, func.python_name, ds ++ docstring_addendum mid,
          pyReplaceFirst func.code ds (ds ++ docstring_addendum mid)⟩
      let dCall := if isGen then ("message_generating_routine_call".data)
        else ("message_routine_call".data)
      let inv := (O.errandText dCall).run (O.client dCall)
        [(("message".data), message), (("code".data), skill.code), (("tidings".data), serT)]
      let vdRaw := (O.errandText ("message_routine_variables".data)).run
        (O.client ("message_routine_variables".data))
        [(("message".data), message), (("code".data), skill.code), (("tidings".data), serT)]
      .ok ([skill], some inv, some (parseVarDescs vdRaw))

/-- `FrameV4.process_message_data`: the fence-stripped LM completion is the
invocation snippet; no skill is synthesized. -/
def process_message_data (O : Oracles) (mid : Int) (message : Chars) : Chars :=
  sanitize_code
    ((O.errandText ("message_data_processing".data)).run (O.client ("message_data_processing".data))
      [(("message".data), message)])

/-- The `skill_capture_context` accumulated by `exec`-ing each skill's code
in turn (harness4.py lines 327-330): a single locals dict shared by all
skills of the message. -/
def captureOf (O : Oracles) (skills : List SkillV4) : List (Chars × Value) :=
  skills.foldl (fun cap sk => dictUpsertAll cap (O.execDefs sk.code)) []

/-- The skill-installation block of `process_message` (lines 327-333):
each skill's code is executed into the shared capture context and the
skill record stored under its name; then every captured binding is merged
into `self.globals` only if its name is not already bound there. -/
def installSkills (O : Oracles) (st : FrameState) (skills : List SkillV4) : FrameState :=
  { st with
    skills := skills.foldl (fun m sk => dictUpsert m sk.name sk) st.skills
    globals :=
      (captureOf O skills).foldl
        (fun g kv => if (dictGet g kv.1).isSome then g else g ++ [kv]) st.globals }

/-- The `execution_context` pre-populated with
`{tiding.python_name: tiding.content}` (line 335). -/
def execContext (st : FrameState) : List (Chars × Value) :=
  st.tidings.map fun kv => (kv.2.python_name, kv.2.content)

/-- The tiding description chosen for a committed variable:
`variable_descriptions[var_name]` when present, else the empty string. -/
def descOf (vds : Option (List (Chars × Chars))) (k : Chars) : Chars :=
  match vds with
  | some d => (dictGet d k).getD []
  | none => []

/-- The tiding-commit loop shared by the terminal and streaming paths:
upsert a `Tiding` for every entry of the variable mapping. -/
def commitVars (tds : List (Chars × Tiding)) (vs : List (Chars × Value))
    (vds : Option (List (Chars × Chars))) : List (Chars × Tiding) :=
  vs.foldl (fun td kv => dictUpsert td kv.1 ⟨kv.1, kv.1, descOf vds kv.1, kv.2⟩) tds

/-- Is a notification's `type` value the string `"final"`? -/
def isFinalVal : Value → Bool
  | .vstr s => decide (s = ("final".data))
  | _ => false

/-- The streaming consumption loop (lines 362-366): walk the generator's
yields keeping the latest `final` element aside and forwarding everything
else; a notification without a `type` key raises mid-iteration. -/
def consumeGen : List Notif → Notif → List Notif × Notif × Option Chars
  | [], fin => ([], fin, none)
  | n :: rest, fin =>
    match dictGet n ("type".data) with
    | none => ([], fin, some errKeyType)
    | some v =>
      if isFinalVal v then consumeGen rest n
      else
        match consumeGen rest fin with
        | (fwd, f, e) => (n :: fwd, f, e)

/-- The outcome of running one message to completion: the terminal result
(or raised exception), the harness state at return or raise time, and the
notifications forwarded to the consumer. -/
structure ProcOut where
  result : Except Chars (Option Value)
  state : FrameState
  notifs : List Notif

/-- The terminal (non-`generating_routine`) invocation path (lines
340-357): execute the snippet, read `__output`, commit `__vars` as
tidings, advance `last_mid`. -/
def runTerminal (O : Oracles) (st1 : FrameState) (mid : Int) (gnr : Bool) (code : Chars)
    (vds : Option (List (Chars × Chars))) : ProcOut :=
  match O.execSnippet code st1.globals (execContext st1) with
  | .error e => ⟨.error e, st1, []⟩
  | .ok locs =>
    match dictGet locs ("__vars".data) with
    | none =>
      ⟨.ok (if gnr then none else dictGet locs ("__output".data)), { st1 with last_mid := mid }, []⟩
    | some (Value.vdict vs) =>
      ⟨.ok (if gnr then none else dictGet locs ("__output".data)),
        { st1 with tidings := commitVars st1.tidings vs vds, last_mid := mid }, []⟩
    | some _ => ⟨.error errVarsNotDict, st1, []⟩

/-- The streaming invocation path (lines 358-379): execute the snippet,
read `__generator`, forward non-`final` yields, and commit
`modified_vars` of the `final` element (if any) as tidings; a generator
left uncommitted by an exception leaves the tidings untouched. -/
def runGen (O : Oracles) (st1 : FrameState) (mid : Int) (code : Chars)
    (vds : Option (List (Chars × Chars))) : ProcOut :=
  match O.execGen code st1.globals (execContext st1) with
  | .error e => ⟨.error e, st1, []⟩
  | .ok gt =>
    match consumeGen gt.yields [] with
    | (fwd, _, some e) => ⟨.error e, st1, fwd⟩
    | (fwd, fin, none) =>
      match gt.err with
      | some e => ⟨.error e, st1, fwd⟩
      | none =>
        match dictGet fin ("modified_vars".data) with
        | none => ⟨.ok none, { st1 with last_mid := mid }, fwd⟩
        | some (Value.vdict vs) =>
          ⟨.ok none, { st1 with tidings := commitVars st1.tidings vs vds, last_mid := mid }, fwd⟩
        | some _ => ⟨.error errModVarsNotDict, st1, fwd⟩

/-- The per-type pipeline dispatch of `process_message` (lines 295-323),
including the refusal of a `generating_routine` processed without
`generate_not_return=True` and the reserved types. -/
def dispatchPipeline (O : Oracles) (st : FrameState) (mid : Int) (message : Chars) (mt : Chars)
    (gnr : Bool) : Except Chars (List SkillV4 × Option Chars × Option (List (Chars × Chars))) :=
  if mt = ("code".data) then process_message_code O mid message st.tidings
  else if mt = ("code_skill".data) then
    (process_message_code_skill O mid message).map (fun sks => (sks, none, none))
  else if mt = ("routine".data) then process_message_routine O mid message st.tidings st.skills false
  else if mt = ("generating_routine".data) then
    if gnr then process_message_routine O mid message st.tidings st.skills true
    else .error errGenStream
  else if mt = ("data".data) then .ok ([], some (process_message_data O mid message), none)
  else .error errNotImpl

/-- The tail of `process_message` once the message type is known: run the
pipeline, install the produced skills, then execute the invocation snippet
on the terminal or streaming path; with no invocation snippet only
`last_mid` advances. -/
def processWithType (O : Oracles) (st : FrameState) (mid : Int) (message : Chars) (mt : Chars)
    (gnr : Bool) : ProcOut :=
  match dispatchPipeline O st mid message mt gnr with
  | .error e => ⟨.error e, st, []⟩
  | .ok (skills, inv, vds) =>
    match inv with
    | none => ⟨.ok none, { installSkills O st skills with last_mid := mid }, []⟩
    | some code =>
      if mt ≠ ("generating_routine".data) then runTerminal O (installSkills O st skills) mid gnr code vds
      else runGen O (installSkills O st skills) mid code vds

/-- `FrameV4.process_message`, run to completion: empty-message check,
type validation, `auto` classification, then the typed pipeline. -/
def process_message (O : Oracles) (st : FrameState) (mid : Int) (message : Chars)
    (message_type : Option Chars) (gnr : Bool) : ProcOut :=
  if pyStrip message = [] then ⟨.error errEmpty, st, []⟩
  else if (message_type.getD ("auto".data)) ∈ allowed_message_types then
    if message_type.getD ("auto".data) = ("auto".data) then
      match decide_message_type O message with
      | .error e => ⟨.error e, st, []⟩
      | .ok mt => processWithType O st mid message mt gnr
    else processWithType O st mid message (message_type.getD ("auto".data)) gnr
  else ⟨.error errInvalidType, st, []⟩

/-- A single line parsable by the concrete mini parser: exactly
`def <name>(): pass` with a nonempty name. -/
def miniParseLine (l : Chars) : Option FuncDef :=
  let name := (l.drop 4).takeWhile (fun c => c ≠ '(')
  if l = ("def ".data) ++ name ++ ("(): pass".data) ∧ name ≠ [] then some ⟨name, [], none, l⟩
  else none

/-- A concrete instance of the `ast`-parse oracle, faithful to CPython's
parser on the fragment used by the counterexamples below: a module each of
whose non-blank lines is a one-line definition `def <name>(): pass` parses
to exactly those top-level functions, and a module containing any other
non-blank line - in particular a backtick fence line, which is never valid
Python - raises a syntax error (`none`). -/
def miniParse (s : Chars) : Option (List FuncDef) :=
  ((splitLines s).filter (fun l => ! isBlankLine l)).mapM miniParseLine

/-- A deterministic stub of the external collaborators, mirroring the
spec's "LM stubbed to fixed replies" test discipline: the errand files
carry the bare `{message}` placeholder as prompt, the LM echoes the
substituted prompt, `exec` of a definition source binds the single name
`f` to the callable compiled from that source, and the invocation-snippet
and generator behaviours are the given constants. -/
def stubOracle (parse : Chars → Option (List FuncDef))
    (snip : Except Chars (List (Chars × Value))) (gen : Except Chars GenTrace) : Oracles where
  errandText := fun _ => ⟨[], ("{message}".data)⟩
  client := fun _ _ prompt => prompt
  parse := parse
  execDefs := fun c => [(("f".data), Value.closure c)]
  execSnippet := fun _ _ _ => snip
  execGen := fun _ _ _ => gen

/-- A parse oracle returning one top-level function `f` with docstring `Q`
whose source span is the whole parsed text. -/
def parseConstQ : Chars → Option (List FuncDef) :=
  fun c => some [⟨("f".data), [], some ("Q".data), c⟩]

/-- A fresh session state before any message (stores empty, `last_mid`
initialized to `-1` as in `new_instance`; the bootstrap namespace is not
needed by the claims and is left empty). -/
def st0 : FrameState := ⟨[], [], [], -1⟩

/-- The synthesis-output form fenced by a `python`-tagged fence. -/
def fencedPython (src : Chars) : Chars := ("```python\n".data) ++ src ++ ("\n```".data)

/-- The synthesis-output form fenced by a bare fence. -/
def fencedPlain (src : Chars) : Chars := ("```\n".data) ++ src ++ ("\n```".data)

/-- The latest skill of a given name in a synthesis batch (a skill later in
the batch shadows an earlier one of the same name). -/
def lastNamed : List SkillV4 → Chars → Option SkillV4
  | [], _ => none
  | sk :: rest, n =>
    match lastNamed rest n with
    | some sk2 => some sk2
    | none => if sk.name = n then some sk else none

/-- First-wins choice between two optional values (used to state dict
lookup lemmas uniformly). -/
def orFirst {α : Type} (a b : Option α) : Option α :=
  match a with
  | some v => some v
  | none => b

/-! ### Dictionary lemmas -/

theorem dictGet_upsert {α : Type} (d : List (Chars × α)) (k n : Chars) (v : α) :
    dictGet (dictUpsert d k v) n = if k = n then some v else dictGet d n := by
  induction d with
  | nil => simp [dictUpsert, dictGet]
  | cons kv rest ih =>
    by_cases h : kv.1 = k
    · simp only [dictUpsert, h, if_pos rfl, dictGet]
      split_ifs with h1 h2 <;> simp_all [dictGet]
    · simp only [dictUpsert, h, if_neg, dictGet, ite_false]
      split_ifs with h1 h2 <;> simp_all [dictGet]

theorem dictGet_append {α : Type} (d l : List (Chars × α)) (n : Chars) :
    dictGet (d ++ l) n = orFirst (dictGet d n) (dictGet l n) := by
  induction d with
  | nil => simp [dictGet, orFirst]
  | cons kv rest ih =>
    by_cases h : kv.1 = n <;> simp [dictGet, h, ih, orFirst]

theorem dictGet_merge_new {α : Type} (cap : List (Chars × α)) (g : List (Chars × α)) (n : Chars) :
    dictGet (cap.foldl (fun g kv => if (dictGet g kv.1).isSome then g else g ++ [kv]) g) n =
      orFirst (dictGet g n) (dictGet cap n) := by
  induction cap generalizing g with
  | nil => cases h : dictGet g n <;> simp [dictGet, h, orFirst]
  | cons kv rest ih =>
    simp only [List.foldl_cons]
    by_cases hk : (dictGet g kv.1).isSome
    · rw [if_pos hk, ih]
      cases hg : dictGet g n with
      | some v => simp [orFirst, hg]
      | none =>
        have hne : kv.1 ≠ n := by
          intro he; rw [he, hg] at hk; simp at hk
        simp [orFirst, hg, dictGet, hne]
    · rw [if_neg hk, ih]
      cases hg : dictGet g n with
      | some v =>
        have h2 : dictGet (g ++ [kv]) n = some v := by
          rw [dictGet_append, hg]; rfl
        simp [orFirst, h2, hg]
      | none =>
        have h2 : dictGet (g ++ [kv]) n = dictGet [kv] n := by
          rw [dictGet_append, hg]; rfl
        by_cases hkn : kv.1 = n <;> simp [orFirst, h2, hg, dictGet, hkn]

/-! ### Install lemmas -/

theorem installSkills_tidings (O : Oracles) (st : FrameState) (skills : List SkillV4) :
    (installSkills O st skills).tidings = st.tidings := rfl

theorem installSkills_last_mid (O : Oracles) (st : FrameState) (skills : List SkillV4) :
    (installSkills O st skills).last_mid = st.last_mid := rfl

theorem installSkills_nil (O : Oracles) (st : FrameState) : installSkills O st [] = st := rfl

theorem installSkills_globals_get (O : Oracles) (st : FrameState) (skills : List SkillV4)
    (n : Chars) :
    dictGet (installSkills O st skills).globals n =
      orFirst (dictGet st.globals n) (dictGet (captureOf O skills) n) := by
  have h := dictGet_merge_new (captureOf O skills) st.globals n
  simpa only [installSkills] using h

theorem dictGet_foldl_upsert_skill (skills : List SkillV4) (m : List (Chars × SkillV4))
    (n : Chars) :
    dictGet (skills.foldl (fun m sk => dictUpsert m sk.name sk) m) n =
      orFirst (lastNamed skills n) (dictGet m n) := by
  induction skills generalizing m with
  | nil => simp [lastNamed, orFirst]
  | cons sk rest ih =>
    simp only [List.foldl_cons, ih, lastNamed]
    cases hlast : lastNamed rest n with
    | some sk2 => simp [orFirst]
    | none =>
      by_cases h : sk.name = n <;> simp [h, dictGet_upsert, orFirst]

theorem installSkills_skills_get (O : Oracles) (st : FrameState) (skills : List SkillV4)
    (n : Chars) :
    dictGet (installSkills O st skills).skills n =
      orFirst (lastNamed skills n) (dictGet st.skills n) := by
  have h := dictGet_foldl_upsert_skill skills st.skills n
  simpa only [installSkills] using h

/-- The source a namespace value was `exec`-compiled from, when it is a
callable. -/
def Value.closureSrc : Value → Option Chars
  | .closure c => some c
  | _ => none

/-! ### C1 fixtures: two `code_skill` messages synthesizing the same name -/

def OC1 : Oracles := stubOracle parseConstQ (.ok []) (.ok ⟨[], none⟩)

/-- State after the first message synthesizing skill `f`. -/
def outC1a : ProcOut := process_message OC1 st0 0 ("Qa".data) (some ("code_skill".data)) false

/-- State after the second message synthesizing a different skill also
named `f`. -/
def outC1b : ProcOut :=
  process_message OC1 outC1a.state 1 ("Qb".data) (some ("code_skill".data)) false

/-- C1 (counterexample): two successful `code_skill` messages synthesize a
skill of the same `python_name` `f` with different bodies.  Both messages
succeed and the second replaces the stored skill record, yet the execution
namespace binding of `f` is unchanged: it still holds the callable
compiled from the first message's code, not the newly synthesized
callable, refuting the claim that installation replaces a prior namespace
binding of the same `python_name`. -/
theorem install_replaces_binding_counterexample :
    outC1a.result = .ok none
    ∧ outC1b.result = .ok none
    ∧ (dictGet outC1b.state.skills ("f".data)).map SkillV4.code ≠
        (dictGet outC1a.state.skills ("f".data)).map SkillV4.code
    ∧ dictGet outC1b.state.globals ("f".data) = dictGet outC1a.state.globals ("f".data)
    ∧ (dictGet outC1b.state.globals ("f".data)).bind Value.closureSrc =
        (dictGet outC1a.state.skills ("f".data)).map SkillV4.code :=
  ⟨rfl, rfl, by decide, rfl, rfl⟩

/-- C1 (amended): the skill-installation block never overwrites an existing
namespace binding; a name not yet bound receives the binding created by
`exec`-ing the skills' code (so a first synthesis does reach the
namespace), and the stored skill record is replaced by the latest skill of
that name. -/
theorem install_merge_semantics (O : Oracles) (st : FrameState) (skills : List SkillV4)
    (n : Chars) :
    ((dictGet st.globals n).isSome →
      dictGet (installSkills O st skills).globals n = dictGet st.globals n)
    ∧ (dictGet st.globals n = none →
      dictGet (installSkills O st skills).globals n = dictGet (captureOf O skills) n)
    ∧ dictGet (installSkills O st skills).skills n =
        orFirst (lastNamed skills n) (dictGet st.skills n) := by
  refine ⟨?_, ?_, installSkills_skills_get O st skills n⟩
  · intro h
    rw [installSkills_globals_get]
    cases hg : dictGet st.globals n with
    | some v => simp [orFirst]
    | none => rw [hg] at h; simp at h
  · intro h
    rw [installSkills_globals_get, h]
    simp [orFirst]

/-- C1 (witness): the amended install semantics evaluated on a concrete
state whose namespace already binds `f`, installing a new skill named
`f`. -/
theorem install_merge_semantics_witness :
    dictGet (installSkills OC1 outC1a.state
        [⟨("f".data), ("Qb".data), ("f".data), ("Q".data), ("def f(): return 2".data)⟩]).globals
        ("f".data) =
      dictGet outC1a.state.globals ("f".data)
    ∧ dictGet (installSkills OC1 outC1a.state
        [⟨("f".data), ("Qb".data), ("f".data), ("Q".data), ("def f(): return 2".data)⟩]).skills
        ("f".data) =
      orFirst
        (lastNamed [⟨("f".data), ("Qb".data), ("f".data), ("Q".data),
          ("def f(): return 2".data)⟩] ("f".data))
        (dictGet outC1a.state.skills ("f".data)) :=
  ⟨(install_merge_semantics OC1 outC1a.state
      [⟨("f".data), ("Qb".data), ("f".data), ("Q".data), ("def f(): return 2".data)⟩]
      ("f".data)).1 (by rfl),
    (install_merge_semantics OC1 outC1a.state
      [⟨("f".data), ("Qb".data), ("f".data), ("Q".data), ("def f(): return 2".data)⟩]
      ("f".data)).2.2⟩

/-! ### Replacement lemmas (C3) -/

theorem replAllGo_skip (pat rep : Chars) (s : Chars) (k : Nat) :
    pyReplaceAllGo pat rep s k = pyReplaceAllGo pat rep (s.drop k) 0 := by
  induction s generalizing k with
  | nil => simp [pyReplaceAllGo]
  | cons c rest ih =>
    cases k with
    | zero => simp
    | succ k2 =>
      show pyReplaceAllGo pat rep rest k2 = _
      rw [ih k2, List.drop_succ_cons]

theorem replAllGo_cons_neg (pat rep : Chars) (c : Char) (rest : Chars)
    (h : pat.isPrefixOf (c :: rest) = false) :
    pyReplaceAllGo pat rep (c :: rest) 0 = c :: pyReplaceAllGo pat rep rest 0 := by
  simp [pyReplaceAllGo, h]

theorem replAllGo_cons_pos (pat rep : Chars) (c : Char) (rest : Chars)
    (h : pat.isPrefixOf (c :: rest) = true) :
    pyReplaceAllGo pat rep (c :: rest) 0 =
      rep ++ pyReplaceAllGo pat rep (rest.drop (pat.length - 1)) 0 := by
  rw [show pyReplaceAllGo pat rep (c :: rest) 0 =
      (if pat.isPrefixOf (c :: rest) then rep ++ pyReplaceAllGo pat rep rest (pat.length - 1)
        else c :: pyReplaceAllGo pat rep rest 0) from rfl]
  rw [if_pos h, replAllGo_skip]

theorem replAllGo_no_lbrace (q rep : Chars) (s : Chars) (hs : ∀ c ∈ s, c ≠ lbrace) :
    pyReplaceAllGo (lbrace :: q) rep s 0 = s := by
  induction s with
  | nil => simp [pyReplaceAllGo]
  | cons c rest ih =>
    have hc : c ≠ lbrace := hs c (List.mem_cons_self _ _)
    have hb : (lbrace == c) = false := beq_eq_false_iff_ne.mpr (Ne.symm hc)
    have hpre : (lbrace :: q).isPrefixOf (c :: rest) = false := by
      simp [List.isPrefixOf, hb]
    rw [replAllGo_cons_neg _ _ _ _ hpre, ih fun x hx => hs x (List.mem_cons_of_mem _ hx)]

theorem replAllGo_append_free (q rep : Chars) (a s : Chars) (ha : ∀ c ∈ a, c ≠ lbrace) :
    pyReplaceAllGo (lbrace :: q) rep (a ++ s) 0 = a ++ pyReplaceAllGo (lbrace :: q) rep s 0 := by
  induction a with
  | nil => simp
  | cons c rest ih =>
    have hc : c ≠ lbrace := ha c (List.mem_cons_self _ _)
    have hb : (lbrace == c) = false := beq_eq_false_iff_ne.mpr (Ne.symm hc)
    have hpre : (lbrace :: q).isPrefixOf (c :: (rest ++ s)) = false := by
      simp [List.isPrefixOf, hb]
    rw [List.cons_append, replAllGo_cons_neg _ _ _ _ hpre,
      ih fun x hx => ha x (List.mem_cons_of_mem _ hx), List.cons_append]

theorem replAllGo_match (q rep w : Chars) :
    pyReplaceAllGo (lbrace :: q) rep ((lbrace :: q) ++ w) 0 =
      rep ++ pyReplaceAllGo (lbrace :: q) rep w 0 := by
  have hpre : (lbrace :: q).isPrefixOf ((lbrace :: q) ++ w) = true :=
    List.isPrefixOf_iff_prefix.mpr (List.prefix_append _ _)
  rw [show (lbrace :: q) ++ w = lbrace :: (q ++ w) from rfl] at hpre ⊢
  rw [replAllGo_cons_pos _ _ _ _ hpre]
  simp [List.drop_left]

theorem joinWith_pair (sep : Chars) (s s2 : Chars) (rest : List Chars) :
    joinWith sep (s :: s2 :: rest) = s ++ sep ++ joinWith sep (s2 :: rest) := rfl

theorem replaceAll_join (q v : Chars) : ∀ (segs : List Chars),
    (∀ s ∈ segs, ∀ c ∈ s, c ≠ lbrace) →
    pyReplaceAllGo (lbrace :: q) v (joinWith (lbrace :: q) segs) 0 = joinWith v segs := by
  intro segs
  induction segs with
  | nil => intro _; simp [joinWith, pyReplaceAllGo]
  | cons s rest ih =>
    intro hsegs
    cases rest with
    | nil =>
      show pyReplaceAllGo (lbrace :: q) v s 0 = s
      exact replAllGo_no_lbrace q v s (hsegs s (List.mem_cons_self _ _))
    | cons s2 rest2 =>
      rw [joinWith_pair, List.append_assoc,
        replAllGo_append_free _ _ _ _ (hsegs s (List.mem_cons_self _ _)), replAllGo_match,
        ih fun x hx => hsegs x (List.mem_cons_of_mem _ hx),
        joinWith_pair, List.append_assoc]

theorem pat_not_prefix (name : Chars) :
    ∀ (m b : Chars), (∀ c ∈ name, c ≠ rbrace) → (∀ c ∈ m, c ≠ rbrace) → name ≠ m →
      (name ++ [rbrace]).isPrefixOf (m ++ rbrace :: b) = false := by
  induction name with
  | nil =>
    intro m b _ hm hnm
    cases m with
    | nil => exact absurd rfl hnm
    | cons d m2 =>
      have hd : d ≠ rbrace := hm d (List.mem_cons_self _ _)
      simp [List.isPrefixOf, beq_eq_false_iff_ne.mpr (Ne.symm hd)]
  | cons c n2 ih =>
    intro m b hn hm hnm
    cases m with
    | nil =>
      have hc : c ≠ rbrace := hn c (List.mem_cons_self _ _)
      simp [List.isPrefixOf, beq_eq_false_iff_ne.mpr hc]
    | cons d m2 =>
      by_cases hcd : c = d
      · have hne : n2 ≠ m2 := by
          intro he; exact hnm (by rw [hcd, he])
        have hrec := ih m2 b (fun x hx => hn x (List.mem_cons_of_mem _ hx))
          (fun x hx => hm x (List.mem_cons_of_mem _ hx)) hne
        simp [List.isPrefixOf, hcd, hrec]
      · simp [List.isPrefixOf, beq_eq_false_iff_ne.mpr hcd]

/-- A deterministic LM stub that echoes its user prompt, making the
substituted prompt observable. -/
def idLM : Chars → Chars → Chars := fun _ p => p

/-- C3 (counterexample): the claim predicts that only the first occurrence
of `{x}` is substituted, so that `"{x} and {x}"` with `x = "A"` becomes
`"A and {x}"`; `Errand.run` in fact substitutes both occurrences,
producing `"A and A"`. -/
theorem errand_first_occurrence_counterexample :
    Errand.run ⟨[], ("{x} and {x}".data)⟩ idLM [(("x".data), ("A".data))] = ("A and A".data)
    ∧ ("A and A".data) ≠ ("A and {x}".data) :=
  ⟨by decide, by decide⟩

/-- C3 (amended): `Errand.run` substitutes an argument's value at every
(left-to-right, non-overlapping) occurrence of its `{name}` token, not
only the first: a prompt assembled from brace-free segments joined by the
token has every separator replaced.  Placeholders whose name is absent
from `args` remain as literal text in the substituted prompt. -/
theorem errand_substitution_semantics :
    (∀ (pre name v : Chars) (segs : List Chars),
      (∀ s ∈ segs, ∀ c ∈ s, c ≠ lbrace) →
      Errand.substituted ⟨pre, joinWith (placeholder name) segs⟩ [(name, v)] = joinWith v segs)
    ∧ (∀ (pre name m v a b : Chars),
      (∀ c ∈ a, c ≠ lbrace) → (∀ c ∈ b, c ≠ lbrace) →
      (∀ c ∈ name, c ≠ lbrace ∧ c ≠ rbrace) → (∀ c ∈ m, c ≠ lbrace ∧ c ≠ rbrace) →
      name ≠ m →
      Errand.substituted ⟨pre, a ++ placeholder m ++ b⟩ [(name, v)] =
        a ++ placeholder m ++ b) := by
  constructor
  · intro pre name v segs hsegs
    show pyReplaceAll (joinWith (placeholder name) segs) (placeholder name) v = joinWith v segs
    rw [pyReplaceAll, if_neg (by simp [placeholder])]
    exact replaceAll_join _ v segs hsegs
  · intro pre name m v a b ha hb hn hm hnm
    show pyReplaceAll (a ++ placeholder m ++ b) (placeholder name) v = a ++ placeholder m ++ b
    rw [pyReplaceAll, if_neg (by simp [placeholder])]
    have hshape : a ++ placeholder m ++ b = a ++ (lbrace :: (m ++ rbrace :: b)) := by
      simp [placeholder]
    rw [show (placeholder name : Chars) = lbrace :: (name ++ [rbrace]) from rfl]
    rw [hshape, replAllGo_append_free _ _ _ _ ha]
    have hnp : (name ++ [rbrace]).isPrefixOf (m ++ rbrace :: b) = false :=
      pat_not_prefix name m b (fun c hc => (hn c hc).2) (fun c hc => (hm c hc).2) hnm
    have hpre1 : (lbrace :: (name ++ [rbrace])).isPrefixOf (lbrace :: (m ++ rbrace :: b)) = false := by
      simp [List.isPrefixOf, hnp]
    rw [replAllGo_cons_neg _ _ _ _ hpre1,
      replAllGo_append_free _ _ _ _ (fun c hc => (hm c hc).1)]
    have hpre2 : (lbrace :: (name ++ [rbrace])).isPrefixOf (rbrace :: b) = false := by
      have : (lbrace == rbrace) = false := by decide
      simp [List.isPrefixOf, this]
    rw [replAllGo_cons_neg _ _ _ _ hpre2, replAllGo_no_lbrace _ _ _ hb]

/-- C3 (witness): the amended substitution semantics evaluated at a
two-occurrence prompt for `x` with value `VAL`, and at a prompt carrying
only the absent placeholder `{y}` substituted for `x`. -/
theorem errand_substitution_semantics_witness :
    Errand.substituted ⟨[], joinWith (placeholder ("x".data)) [("a ".data), (" b".data)]⟩
      [(("x".data), ("VAL".data))] = joinWith ("VAL".data) [("a ".data), (" b".data)]
    ∧ Errand.substituted ⟨[], ("see ".data) ++ placeholder ("y".data) ++ (" here".data)⟩
        [(("x".data), ("VAL".data))] = ("see ".data) ++ placeholder ("y".data) ++ (" here".data) :=
  ⟨errand_substitution_semantics.1 [] ("x".data) ("VAL".data) [("a ".data), (" b".data)]
      (by decide),
    errand_substitution_semantics.2 [] ("x".data) ("y".data) ("VAL".data) ("see ".data)
      (" here".data) (by decide) (by decide) (by decide) (by decide) (by decide)⟩

/-! ### C5: the multiple-choice post-filter and classification closure -/

theorem find?_first_characterization {α : Type} (p : α → Bool) :
    ∀ (l : List α) (c : α), l.find? p = some c →
      ∃ pre suf, l = pre ++ c :: suf ∧ (∀ x ∈ pre, p x = false) ∧ p c = true := by
  intro l
  induction l with
  | nil => intro c h; simp [List.find?] at h
  | cons a rest ih =>
    intro c h
    cases hp : p a with
    | true =>
      rw [List.find?_cons_of_pos _ hp] at h
      obtain rfl : a = c := by injection h
      exact ⟨[], rest, rfl, by simp, hp⟩
    | false =>
      rw [List.find?_cons_of_neg _ (by simp [hp])] at h
      obtain ⟨pre, suf, heq, hpre, hc⟩ := ih c h
      exact ⟨a :: pre, suf, by rw [heq, List.cons_append],
        by intro x hx; rcases List.mem_cons.mp hx with rfl | hx2
           · exact hp
           · exact hpre x hx2, hc⟩

/-- C5: the multiple-choice post-filter of `MultipleChoiceErrand.run`
returns the first element of its `choices` list, in list order, that
occurs as a substring of the LM completion, and returns `None` when no
choice occurs; and `decide_message_type` never returns a value outside
`allowed_message_types` - a `None` or disallowed filter outcome is turned
into a raised error, never returned. -/
theorem multiple_choice_first_match_and_closure :
    (∀ (e : Errand) (choices : List Chars) (lm : Chars → Chars → Chars)
        (args : List (Chars × Chars)) (c : Chars),
      MultipleChoiceErrand.run e choices lm args = some c →
        ∃ pre suf, choices = pre ++ c :: suf
          ∧ containsSub c (e.run lm args) = true
          ∧ ∀ x ∈ pre, containsSub x (e.run lm args) = false)
    ∧ (∀ (e : Errand) (choices : List Chars) (lm : Chars → Chars → Chars)
        (args : List (Chars × Chars)),
      MultipleChoiceErrand.run e choices lm args = none →
        ∀ x ∈ choices, containsSub x (e.run lm args) = false)
    ∧ (∀ (O : Oracles) (msg t : Chars),
      decide_message_type O msg = .ok t → t ∈ allowed_message_types) := by
  refine ⟨?_, ?_, ?_⟩
  · intro e choices lm args c h
    obtain ⟨pre, suf, heq, hpre, hc⟩ := find?_first_characterization _ choices c h
    exact ⟨pre, suf, heq, hc, hpre⟩
  · intro e choices lm args h x hx
    have := List.find?_eq_none.mp h x hx
    simpa using this
  · intro O msg t h
    unfold decide_message_type at h
    cases hm : MultipleChoiceErrand.run (O.errandText ("message_type".data)) messageTypeChoices
        (O.client ("message_type".data)) [(("message".data), msg)] with
    | none => rw [hm] at h; exact absurd h (by simp)
    | some t2 =>
      rw [hm] at h
      dsimp only at h
      by_cases ht : t2 ∈ allowed_message_types
      · rw [if_pos ht] at h
        obtain rfl : t2 = t := by injection h
        exact ht
      · rw [if_neg ht] at h
        exact absurd h (by simp)

/-- C5 (witness): the filter and the classifier evaluated on a completion
equal to `code`: the filter selects `code` (the fourth choice; the three
earlier choices do not occur), and the classifier returns it, a member of
the allowed set. -/
theorem multiple_choice_first_match_and_closure_witness :
    (∃ pre suf, messageTypeChoices = pre ++ ("code".data) :: suf
      ∧ containsSub ("code".data) (Errand.run ⟨[], []⟩ (fun _ _ => ("code".data)) []) = true
      ∧ ∀ x ∈ pre, containsSub x (Errand.run ⟨[], []⟩ (fun _ _ => ("code".data)) []) = false)
    ∧ ("code".data) ∈ allowed_message_types :=
  ⟨multiple_choice_first_match_and_closure.1 ⟨[], []⟩ messageTypeChoices
      (fun _ _ => ("code".data)) [] ("code".data) (by decide),
    multiple_choice_first_match_and_closure.2.2 OC1 ("code".data) ("code".data) rfl⟩

/-! ### Success and failure shape lemmas for the invocation paths -/

theorem runTerminal_ok_last_mid (O : Oracles) (st1 : FrameState) (mid : Int) (gnr : Bool)
    (code : Chars) (vds : Option (List (Chars × Chars))) (v : Option Value)
    (h : (runTerminal O st1 mid gnr code vds).result = .ok v) :
    (runTerminal O st1 mid gnr code vds).state.last_mid = mid := by
  unfold runTerminal at h ⊢
  cases hs : O.execSnippet code st1.globals (execContext st1)
  case error e => simp [hs] at h
  case ok locs =>
    simp only [hs] at h
    dsimp only at h ⊢
    cases hv : dictGet locs ("__vars".data)
    case none => rfl
    case some w =>
      simp only [hv] at h
      cases w <;> first | rfl | simp at h

theorem runTerminal_error_tidings (O : Oracles) (st1 : FrameState) (mid : Int) (gnr : Bool)
    (code : Chars) (vds : Option (List (Chars × Chars))) (e : Chars)
    (h : (runTerminal O st1 mid gnr code vds).result = .error e) :
    (runTerminal O st1 mid gnr code vds).state.tidings = st1.tidings := by
  unfold runTerminal at h ⊢
  cases hs : O.execSnippet code st1.globals (execContext st1)
  case error e2 => rfl
  case ok locs =>
    simp only [hs] at h
    dsimp only at h ⊢
    cases hv : dictGet locs ("__vars".data)
    case none => simp [hv] at h
    case some w =>
      simp only [hv] at h
      cases w <;> first | rfl | simp at h

theorem runGen_ok_last_mid (O : Oracles) (st1 : FrameState) (mid : Int) (code : Chars)
    (vds : Option (List (Chars × Chars))) (v : Option Value)
    (h : (runGen O st1 mid code vds).result = .ok v) :
    (runGen O st1 mid code vds).state.last_mid = mid := by
  unfold runGen at h ⊢
  cases hs : O.execGen code st1.globals (execContext st1)
  case error e => simp [hs] at h
  case ok gt =>
    simp only [hs] at h
    dsimp only at h ⊢
    rcases hc : consumeGen gt.yields [] with ⟨fwd, fin, erropt⟩
    rw [hc] at h
    cases erropt
    case some e => simp at h
    case none =>
      dsimp only at h ⊢
      cases he : gt.err
      case some e => simp [he] at h
      case none =>
        simp only [he] at h
        dsimp only at h ⊢
        cases hm : dictGet fin ("modified_vars".data)
        case none => rfl
        case some w =>
          simp only [hm] at h
          cases w <;> first | rfl | simp at h

theorem runGen_error_tidings (O : Oracles) (st1 : FrameState) (mid : Int) (code : Chars)
    (vds : Option (List (Chars × Chars))) (e : Chars)
    (h : (runGen O st1 mid code vds).result = .error e) :
    (runGen O st1 mid code vds).state.tidings = st1.tidings := by
  unfold runGen at h ⊢
  cases hs : O.execGen code st1.globals (execContext st1)
  case error e2 => rfl
  case ok gt =>
    simp only [hs] at h
    dsimp only at h ⊢
    rcases hc : consumeGen gt.yields [] with ⟨fwd, fin, erropt⟩
    rw [hc] at h
    cases erropt
    case some e2 => rfl
    case none =>
      dsimp only at h ⊢
      cases he : gt.err
      case some e2 => rfl
      case none =>
        simp only [he] at h
        dsimp only at h ⊢
        cases hm : dictGet fin ("modified_vars".data)
        case none => simp [hm] at h
        case some w =>
          simp only [hm] at h
          cases w <;> first | rfl | simp at h

theorem processWithType_ok_last_mid (O : Oracles) (st : FrameState) (mid : Int)
    (message : Chars) (mt : Chars) (gnr : Bool) (v : Option Value)
    (h : (processWithType O st mid message mt gnr).result = .ok v) :
    (processWithType O st mid message mt gnr).state.last_mid = mid := by
  unfold processWithType at h ⊢
  cases hd : dispatchPipeline O st mid message mt gnr
  case error e => rw [hd] at h; simp at h
  case ok trip =>
    rw [hd] at h
    rcases trip with ⟨skills, inv, vds⟩
    cases inv
    case none => rfl
    case some code =>
      dsimp only at h ⊢
      by_cases hmt : mt ≠ ("generating_routine".data)
      · rw [if_pos hmt] at h ⊢
        exact runTerminal_ok_last_mid _ _ _ _ _ _ _ h
      · rw [if_neg hmt] at h ⊢
        exact runGen_ok_last_mid _ _ _ _ _ _ h

theorem processWithType_error_tidings (O : Oracles) (st : FrameState) (mid : Int)
    (message : Chars) (mt : Chars) (gnr : Bool) (e : Chars)
    (h : (processWithType O st mid message mt gnr).result = .error e) :
    (processWithType O st mid message mt gnr).state.tidings = st.tidings := by
  unfold processWithType at h ⊢
  cases hd : dispatchPipeline O st mid message mt gnr
  case error e2 => rfl
  case ok trip =>
    rw [hd] at h
    rcases trip with ⟨skills, inv, vds⟩
    cases inv
    case none => simp at h
    case some code =>
      dsimp only at h ⊢
      by_cases hmt : mt ≠ ("generating_routine".data)
      · rw [if_pos hmt] at h ⊢
        rw [runTerminal_error_tidings _ _ _ _ _ _ _ h, installSkills_tidings]
      · rw [if_neg hmt] at h ⊢
        rw [runGen_error_tidings _ _ _ _ _ _ h, installSkills_tidings]

theorem process_message_ok_last_mid (O : Oracles) (st : FrameState) (mid : Int)
    (message : Chars) (message_type : Option Chars) (gnr : Bool) (v : Option Value)
    (h : (process_message O st mid message message_type gnr).result = .ok v) :
    (process_message O st mid message message_type gnr).state.last_mid = mid := by
  unfold process_message at h ⊢
  by_cases hstrip : pyStrip message = []
  · rw [if_pos hstrip] at h; simp at h
  · rw [if_neg hstrip] at h ⊢
    by_cases hmem : (message_type.getD ("auto".data)) ∈ allowed_message_types
    · rw [if_pos hmem] at h ⊢
      by_cases hauto : message_type.getD ("auto".data) = ("auto".data)
      · rw [if_pos hauto] at h ⊢
        cases hdec : decide_message_type O message with
        | error e => rw [hdec] at h; simp at h
        | ok mt =>
          rw [hdec] at h
          exact processWithType_ok_last_mid _ _ _ _ _ _ _ h
      · rw [if_neg hauto] at h ⊢
        exact processWithType_ok_last_mid _ _ _ _ _ _ _ h
    · rw [if_neg hmem] at h; simp at h

theorem process_message_error_tidings (O : Oracles) (st : FrameState) (mid : Int)
    (message : Chars) (message_type : Option Chars) (gnr : Bool) (e : Chars)
    (h : (process_message O st mid message message_type gnr).result = .error e) :
    (process_message O st mid message message_type gnr).state.tidings = st.tidings := by
  unfold process_message at h ⊢
  by_cases hstrip : pyStrip message = []
  · rw [if_pos hstrip]
  · rw [if_neg hstrip] at h ⊢
    by_cases hmem : (message_type.getD ("auto".data)) ∈ allowed_message_types
    · rw [if_pos hmem] at h ⊢
      by_cases hauto : message_type.getD ("auto".data) = ("auto".data)
      · rw [if_pos hauto] at h ⊢
        cases hdec : decide_message_type O message with
        | error e2 => rfl
        | ok mt =>
          rw [hdec] at h
          exact processWithType_error_tidings _ _ _ _ _ _ _ h
      · rw [if_neg hauto] at h ⊢
        exact processWithType_error_tidings _ _ _ _ _ _ _ h
    · rw [if_neg hmem]

theorem dispatch_gen_false (O : Oracles) (st : FrameState) (mid : Int) (message : Chars) :
    dispatchPipeline O st mid message ("generating_routine".data) false = .error errGenStream := by
  unfold dispatchPipeline
  rw [if_neg (by decide), if_neg (by decide), if_neg (by decide), if_pos rfl]
  rfl

/-- C9: a `generating_routine` message processed through the terminal path
(`generate_not_return=False`) is refused: `process_message` raises an
error before invoking any pipeline (hence before any LM call, skill
installation or tiding mutation), forwards no notification, and leaves the
whole harness state - skills, tidings, execution namespace and
`last_mid` - exactly as it was. -/
theorem gen_requires_streaming (O : Oracles) (st : FrameState) (mid : Int) (message : Chars) :
    (∃ e, (process_message O st mid message (some ("generating_routine".data)) false).result =
      .error e)
    ∧ (process_message O st mid message (some ("generating_routine".data)) false).state = st
    ∧ (process_message O st mid message (some ("generating_routine".data)) false).notifs = [] := by
  unfold process_message
  by_cases hstrip : pyStrip message = []
  · rw [if_pos hstrip]
    exact ⟨⟨errEmpty, rfl⟩, rfl, rfl⟩
  · rw [if_neg hstrip,
      if_pos (show ((some ("generating_routine".data)).getD ("auto".data)) ∈
        allowed_message_types by decide),
      if_neg (show ¬ ((some ("generating_routine".data)).getD ("auto".data)) = ("auto".data)
        by decide)]
    unfold processWithType
    rw [show ((some ("generating_routine".data)).getD ("auto".data)) = ("generating_routine".data)
      from rfl]
    rw [dispatch_gen_false]
    exact ⟨⟨errGenStream, rfl⟩, rfl, rfl⟩

/-! ### C4: last_mid tracking -/

def OD : Oracles := stubOracle (fun _ => none) (.ok []) (.ok ⟨[], none⟩)

def outD1 : ProcOut := process_message OD st0 5 ("m1".data) (some ("data".data)) false

def outD2 : ProcOut := process_message OD outD1.state 3 ("m2".data) (some ("data".data)) false

def outD3 : ProcOut := process_message OD outD2.state 7 ("m3".data) (some ("data".data)) false

/-- C4 (counterexample): two successful `data` messages processed with
mids 5 then 3: both succeed, and `last_mid` decreases from 5 to 3, because
`process_message` assigns `last_mid = mid` unconditionally, with no
monotonicity check on the caller-supplied mid. -/
theorem last_mid_monotonic_counterexample :
    outD1.result = .ok none ∧ outD2.result = .ok none
    ∧ outD1.state.last_mid = 5 ∧ outD2.state.last_mid = 3
    ∧ ¬ outD1.state.last_mid ≤ outD2.state.last_mid :=
  ⟨rfl, rfl, rfl, rfl, by decide⟩

/-- C4 (amended): after every successful `process_message` call,
`last_mid` equals the processed message's `mid`; consequently `last_mid`
is non-decreasing across successive successful messages whenever their
mids are non-decreasing (the data model's monotonic-mid invariant), but
the harness itself does not enforce mid monotonicity. -/
theorem last_mid_equals_message_mid :
    (∀ (O : Oracles) (st : FrameState) (mid : Int) (message : Chars)
        (message_type : Option Chars) (gnr : Bool) (v : Option Value),
      (process_message O st mid message message_type gnr).result = .ok v →
      (process_message O st mid message message_type gnr).state.last_mid = mid)
    ∧ (∀ (O : Oracles) (st : FrameState) (mid1 mid2 : Int) (m1 m2 : Chars)
        (t1 t2 : Option Chars) (g1 g2 : Bool) (v1 v2 : Option Value),
      (process_message O st mid1 m1 t1 g1).result = .ok v1 →
      (process_message O (process_message O st mid1 m1 t1 g1).state mid2 m2 t2 g2).result =
        .ok v2 →
      mid1 ≤ mid2 →
      (process_message O st mid1 m1 t1 g1).state.last_mid ≤
        (process_message O (process_message O st mid1 m1 t1 g1).state mid2 m2 t2 g2).state.last_mid) := by
  constructor
  · intro O st mid msg mt gnr v h
    exact process_message_ok_last_mid _ _ _ _ _ _ _ h
  · intro O st mid1 mid2 m1 m2 t1 t2 g1 g2 v1 v2 h1 h2 hle
    rw [process_message_ok_last_mid _ _ _ _ _ _ _ h1,
      process_message_ok_last_mid _ _ _ _ _ _ _ h2]
    exact hle

/-- C4 (witness): the amended tracking property evaluated on concrete
successful `data` messages with mids 5, then 3 followed by 7. -/
theorem last_mid_equals_message_mid_witness :
    outD1.state.last_mid = 5 ∧ outD2.state.last_mid ≤ outD3.state.last_mid :=
  ⟨last_mid_equals_message_mid.1 OD st0 5 ("m1".data) (some ("data".data)) false none rfl,
    last_mid_equals_message_mid.2 OD outD1.state 3 7 ("m2".data) ("m3".data)
      (some ("data".data)) (some ("data".data)) false false none none rfl rfl (by decide)⟩

/-! ### C7: streaming failures commit no tidings -/

/-- C7: a `generating_routine` message whose processing raises - in
particular one whose generator raises before yielding a `final` element -
leaves the tidings mapping exactly as it was before the invocation
snippet was executed (tiding commits happen only after a completed
iteration, so no tiding is upserted). -/
theorem streaming_failure_preserves_tidings (O : Oracles) (st : FrameState) (mid : Int)
    (message : Chars) (e : Chars)
    (h : (process_message O st mid message (some ("generating_routine".data)) true).result =
      .error e) :
    (process_message O st mid message (some ("generating_routine".data)) true).state.tidings =
      st.tidings :=
  process_message_error_tidings _ _ _ _ _ _ _ h

def OG7 : Oracles := stubOracle parseConstQ (.ok []) (.ok ⟨[], some ("boom".data)⟩)

/-- C7 (witness): a concrete streaming message whose generator raises
before any yield; the tidings mapping is unchanged. -/
theorem streaming_failure_preserves_tidings_witness :
    (process_message OG7 st0 0 ("Qa".data) (some ("generating_routine".data)) true).state.tidings =
      st0.tidings :=
  streaming_failure_preserves_tidings OG7 st0 0 ("Qa".data) ("boom".data) rfl

/-! ### C10: data tidings carry the empty description -/

theorem commitVars_none_desc : ∀ (vs : List (Chars × Value)) (tds : List (Chars × Tiding))
    (k : Chars) (t : Tiding),
    dictGet (commitVars tds vs none) k = some t →
    dictGet tds k = some t ∨ t.description = [] := by
  intro vs
  induction vs with
  | nil => intro tds k t h; exact Or.inl h
  | cons kv rest ih =>
    intro tds k t h
    have hstep : commitVars tds (kv :: rest) none =
        commitVars (dictUpsert tds kv.1 ⟨kv.1, kv.1, descOf none kv.1, kv.2⟩) rest none := rfl
    rw [hstep] at h
    rcases ih _ k t h with h2 | h2
    · rw [dictGet_upsert] at h2
      by_cases hk : kv.1 = k
      · rw [if_pos hk] at h2
        injection h2 with h3
        right
        rw [← h3]
        rfl
      · rw [if_neg hk] at h2
        exact Or.inl h2
    · exact Or.inr h2

/-- C10: every tiding reachable after a `data` message either predates the
message or carries the empty-string description: the data pipeline
produces no variable-description map (`variable_descriptions` stays
`None`), so every identifier committed from `__vars` is stored as a
`Tiding` whose description is `""`. -/
theorem data_tidings_have_empty_description (O : Oracles) (st : FrameState) (mid : Int)
    (message : Chars) (k : Chars) (t : Tiding)
    (h : dictGet (process_message O st mid message (some ("data".data)) false).state.tidings k =
      some t) :
    dictGet st.tidings k = some t ∨ t.description = [] := by
  unfold process_message at h
  by_cases hstrip : pyStrip message = []
  · rw [if_pos hstrip] at h
    exact Or.inl h
  · rw [if_neg hstrip,
      if_pos (show ((some ("data".data)).getD ("auto".data)) ∈ allowed_message_types by decide),
      if_neg (show ¬ ((some ("data".data)).getD ("auto".data)) = ("auto".data) by decide)] at h
    unfold processWithType at h
    rw [show ((some ("data".data)).getD ("auto".data)) = ("data".data) from rfl] at h
    have hd : dispatchPipeline O st mid message ("data".data) false =
        .ok ([], some (process_message_data O mid message), none) := by
      unfold dispatchPipeline
      rw [if_neg (by decide), if_neg (by decide), if_neg (by decide), if_neg (by decide),
        if_pos rfl]
    rw [hd] at h
    dsimp only at h
    rw [if_pos (show ("data".data) ≠ ("generating_routine".data) by decide),
      installSkills_nil] at h
    unfold runTerminal at h
    cases hs : O.execSnippet (process_message_data O mid message) st.globals (execContext st) with
    | error e => simp only [hs] at h; exact Or.inl h
    | ok locs =>
      simp only [hs] at h
      cases hv : dictGet locs ("__vars".data) with
      | none =>
        simp only [hv] at h
        exact Or.inl h
      | some w =>
        simp only [hv] at h
        cases w <;> first
          | exact commitVars_none_desc _ _ _ _ h
          | exact Or.inl h

def OV : Oracles :=
  stubOracle (fun _ => none)
    (.ok [(("__vars".data), Value.vdict [(("x".data), Value.vint 7)])]) (.ok ⟨[], none⟩)

def tV : Tiding := ⟨("x".data), ("x".data), [], Value.vint 7⟩

/-- C10 (witness): a concrete `data` message committing `x = 7`; the
stored tiding carries the empty description. -/
theorem data_tidings_have_empty_description_witness :
    dictGet st0.tidings ("x".data) = some tV ∨ tV.description = [] :=
  data_tidings_have_empty_description OV st0 2 ("m".data) ("x".data) tV rfl

/-! ### C6: empty extraction on a code message -/

/-- C6: when AST parsing of the synthesized code fails, extraction returns
the empty list; and a `code` message whose extraction yields no top-level
function installs no skill, executes no invocation snippet, mutates no
tiding, forwards nothing, and still advances `last_mid` to the message's
mid - the resulting state is exactly the prior state with `last_mid`
updated. -/
theorem code_empty_extraction_no_effect :
    (∀ (parse : Chars → Option (List FuncDef)) (code : Chars),
      parse code = none → extract_function_definitions parse code = [])
    ∧ (∀ (O : Oracles) (st : FrameState) (mid : Int) (message : Chars),
      pyStrip message ≠ [] →
      extract_function_definitions O.parse (code_synthesis_text O mid message st.tidings) = [] →
      process_message O st mid message (some ("code".data)) false =
        ⟨.ok none, { st with last_mid := mid }, []⟩) := by
  constructor
  · intro parse code h
    unfold extract_function_definitions
    rw [h]
    rfl
  · intro O st mid message hstrip hext
    unfold process_message
    rw [if_neg hstrip,
      if_pos (show ((some ("code".data)).getD ("auto".data)) ∈ allowed_message_types by decide),
      if_neg (show ¬ ((some ("code".data)).getD ("auto".data)) = ("auto".data) by decide)]
    unfold processWithType
    rw [show ((some ("code".data)).getD ("auto".data)) = ("code".data) from rfl]
    have hd : dispatchPipeline O st mid message ("code".data) false = .ok ([], none, none) := by
      unfold dispatchPipeline
      rw [if_pos rfl]
      unfold process_message_code
      rw [hext]
    rw [hd]
    dsimp only
    rw [installSkills_nil]

/-- C6 (witness): a concrete `code` message whose parse oracle always
fails: extraction is empty and the only state change is `last_mid`. -/
theorem code_empty_extraction_no_effect_witness :
    extract_function_definitions OD.parse (code_synthesis_text OD 1 ("m".data) st0.tidings) = []
    ∧ process_message OD st0 1 ("m".data) (some ("code".data)) false =
      ⟨.ok none, { st0 with last_mid := 1 }, []⟩ :=
  ⟨code_empty_extraction_no_effect.1 OD.parse _ rfl,
    code_empty_extraction_no_effect.2 OD st0 1 ("m".data) (by decide) rfl⟩

/-! ### C2: a generator exhausted without a final element -/

theorem consumeGen_no_final : ∀ (ys : List Notif) (fin : Notif),
    (∀ n ∈ ys, ∃ v, dictGet n ("type".data) = some v ∧ isFinalVal v = false) →
    consumeGen ys fin = (ys, fin, none) := by
  intro ys
  induction ys with
  | nil => intro fin _; rfl
  | cons n rest ih =>
    intro fin hall
    obtain ⟨v, hv, hnf⟩ := hall n (List.mem_cons_self _ _)
    have hrest := ih fin fun x hx => hall x (List.mem_cons_of_mem _ hx)
    simp [consumeGen, hv, hnf, hrest]

def OG2 : Oracles :=
  stubOracle parseConstQ (.ok [])
    (.ok ⟨[[(("type".data), Value.vstr ("step".data))]], none⟩)

def outG2 : ProcOut :=
  process_message OG2 st0 0 ("Qa".data) (some ("generating_routine".data)) true

/-- C2 (counterexample): a `generating_routine` message whose generator
yields one `step` notification and is then exhausted without ever
yielding a `final` element: the streaming flow of `process_message`
completes normally with `.ok` - it raises no `MissingFinalNotification`
(no such error exists in the code) - forwarding the `step` element,
committing no tiding, and advancing `last_mid`. -/
theorem missing_final_not_raised_counterexample :
    outG2.result = .ok none
    ∧ outG2.notifs = [[(("type".data), Value.vstr ("step".data))]]
    ∧ outG2.state.tidings = st0.tidings
    ∧ outG2.state.last_mid = 0 :=
  ⟨rfl, rfl, rfl, rfl⟩

/-- C2 (amended): when the `__generator` sequence of a streaming message
is exhausted without ever yielding an element whose `type` is `"final"`
(and without raising), `process_message` completes normally instead of
raising: the result is `.ok`, every yielded element is forwarded in
order, no tiding is committed, and `last_mid` advances to the message's
mid.  The `MissingFinalNotification` error of the specification is never
raised by the code. -/
theorem gen_exhausted_without_final_completes (O : Oracles) (st : FrameState) (mid : Int)
    (message : Chars) (skills : List SkillV4) (inv : Chars)
    (vds : Option (List (Chars × Chars))) (ys : List Notif)
    (hstrip : pyStrip message ≠ [])
    (hp : process_message_routine O mid message st.tidings st.skills true =
      .ok (skills, some inv, vds))
    (hg : O.execGen inv (installSkills O st skills).globals
      (execContext (installSkills O st skills)) = .ok ⟨ys, none⟩)
    (hy : ∀ n ∈ ys, ∃ v, dictGet n ("type".data) = some v ∧ isFinalVal v = false) :
    (process_message O st mid message (some ("generating_routine".data)) true).result = .ok none
    ∧ (process_message O st mid message (some ("generating_routine".data)) true).notifs = ys
    ∧ (process_message O st mid message (some ("generating_routine".data)) true).state.tidings =
        st.tidings
    ∧ (process_message O st mid message (some ("generating_routine".data)) true).state.last_mid =
        mid := by
  have hred : process_message O st mid message (some ("generating_routine".data)) true =
      runGen O (installSkills O st skills) mid inv vds := by
    unfold process_message
    rw [if_neg hstrip,
      if_pos (show ((some ("generating_routine".data)).getD ("auto".data)) ∈
        allowed_message_types by decide),
      if_neg (show ¬ ((some ("generating_routine".data)).getD ("auto".data)) = ("auto".data)
        by decide)]
    unfold processWithType
    rw [show ((some ("generating_routine".data)).getD ("auto".data)) =
      ("generating_routine".data) from rfl]
    have hd : dispatchPipeline O st mid message ("generating_routine".data) true =
        .ok (skills, some inv, vds) := by
      unfold dispatchPipeline
      rw [if_neg (by decide), if_neg (by decide), if_neg (by decide), if_pos rfl]
      exact hp
    rw [hd]
    dsimp only
    rw [if_neg (show ¬ ("generating_routine".data) ≠ ("generating_routine".data) by simp)]
  rw [hred]
  unfold runGen
  rw [hg]
  dsimp only
  rw [consumeGen_no_final ys [] hy]
  exact ⟨rfl, rfl, installSkills_tidings O st skills, rfl⟩

def skG : SkillV4 :=
  ⟨("f".data), ("Qa".data), ("f".data), ("Q".data) ++ docstring_addendum 0,
    pyReplaceFirst ("Qa".data) ("Q".data) (("Q".data) ++ docstring_addendum 0)⟩

/-- C2 (witness): the amended completion behaviour evaluated on the
concrete stub whose generator yields one `step` and no `final`. -/
theorem gen_exhausted_without_final_completes_witness :
    (process_message OG2 st0 0 ("Qa".data) (some ("generating_routine".data)) true).result =
      .ok none
    ∧ (process_message OG2 st0 0 ("Qa".data) (some ("generating_routine".data)) true).notifs =
        [[(("type".data), Value.vstr ("step".data))]]
    ∧ (process_message OG2 st0 0 ("Qa".data)
        (some ("generating_routine".data)) true).state.tidings = st0.tidings
    ∧ (process_message OG2 st0 0 ("Qa".data)
        (some ("generating_routine".data)) true).state.last_mid = 0 :=
  gen_exhausted_without_final_completes OG2 st0 0 ("Qa".data) [skG] ("Qa".data) (some [])
    [[(("type".data), Value.vstr ("step".data))]] (by decide) rfl rfl
    (by
      intro n hn
      rw [List.mem_singleton] at hn
      subst hn
      exact ⟨Value.vstr ("step".data), rfl, rfl⟩)

/-! ### C8: fence robustness of sanitize_code + extraction -/

theorem splitSep_cons (c : Char) (rest : Chars) :
    splitSep (c :: rest) = if c = '\n' then [] :: splitSep rest else consHead c (splitSep rest) :=
  rfl

theorem splitSep_ne_nil : ∀ s : Chars, splitSep s ≠ [] := by
  intro s
  cases s with
  | nil => simp [splitSep]
  | cons c rest =>
    unfold splitSep
    by_cases h : c = '\n'
    · rw [if_pos h]; simp
    · rw [if_neg h]
      unfold consHead
      cases hr : splitSep rest <;> simp

theorem consHead_append (c : Char) (xs ys : List Chars) (h : xs ≠ []) :
    consHead c (xs ++ ys) = consHead c xs ++ ys := by
  cases xs with
  | nil => exact absurd rfl h
  | cons p ps => rfl

theorem splitSep_append_newline : ∀ (x y : Chars),
    splitSep (x ++ '\n' :: y) = splitSep x ++ splitSep y := by
  intro x y
  induction x with
  | nil => simp [splitSep]
  | cons c x2 ih =>
    by_cases h : c = '\n'
    · subst h
      have l1 : splitSep ('\n' :: (x2 ++ '\n' :: y)) = [] :: splitSep (x2 ++ '\n' :: y) := by
        rw [splitSep_cons, if_pos rfl]
      have l2 : splitSep ('\n' :: x2) = [] :: splitSep x2 := by
        rw [splitSep_cons, if_pos rfl]
      rw [List.cons_append, l1, ih, l2, List.cons_append]
    · have l1 : splitSep (c :: (x2 ++ '\n' :: y)) = consHead c (splitSep (x2 ++ '\n' :: y)) := by
        rw [splitSep_cons, if_neg h]
      have l2 : splitSep (c :: x2) = consHead c (splitSep x2) := by
        rw [splitSep_cons, if_neg h]
      rw [List.cons_append, l1, ih, consHead_append _ _ _ (splitSep_ne_nil x2), l2]

theorem joinWith_consHead (sep : Chars) (c : Char) (l : List Chars) (h : l ≠ []) :
    joinWith sep (consHead c l) = c :: joinWith sep l := by
  cases l with
  | nil => exact absurd rfl h
  | cons p ps =>
    cases ps with
    | nil => rfl
    | cons q qs =>
      show joinWith sep ((c :: p) :: q :: qs) = _
      rw [joinWith_pair, joinWith_pair]
      simp

theorem joinNL_splitSep : ∀ s : Chars, joinNL (splitSep s) = s := by
  intro s
  induction s with
  | nil => rfl
  | cons c rest ih =>
    have ih2 : joinWith ['\n'] (splitSep rest) = rest := ih
    by_cases h : c = '\n'
    · subst h
      have l1 : splitSep ('\n' :: rest) = [] :: splitSep rest := by
        rw [splitSep_cons, if_pos rfl]
      rw [l1]
      obtain ⟨p, ps, hl⟩ : ∃ p ps, splitSep rest = p :: ps := by
        cases hr : splitSep rest with
        | nil => exact absurd hr (splitSep_ne_nil rest)
        | cons p ps => exact ⟨p, ps, rfl⟩
      rw [hl]
      show joinWith ['\n'] ([] :: p :: ps) = '\n' :: rest
      rw [joinWith_pair, ← hl]
      simpa using ih2
    · have l1 : splitSep (c :: rest) = consHead c (splitSep rest) := by
        rw [splitSep_cons, if_neg h]
      rw [l1]
      show joinWith ['\n'] (consHead c (splitSep rest)) = c :: rest
      rw [joinWith_consHead _ _ _ (splitSep_ne_nil rest), ih2]

theorem dropLastIf_concat (p : Chars → Bool) (xs : List Chars) (a : Chars) :
    dropLastIf p (xs ++ [a]) = if p a then xs else xs ++ [a] := by
  unfold dropLastIf
  rw [List.getLast?_concat]
  dsimp only
  by_cases h : p a
  · rw [if_pos h, if_pos h, List.dropLast_concat]
  · rw [if_neg h, if_neg h]

theorem dropHeadIf_cons (p : Chars → Bool) (l : Chars) (rest : List Chars) :
    dropHeadIf p (l :: rest) = if p l then rest else l :: rest :=
  rfl

theorem sanitizeLines_fence_wrap (fence : Chars) (src : Chars)
    (hfence : isFenceLine fence = true) (hblank : isBlankLine fence = false) :
    sanitizeLines (fence :: (splitSep src ++ [("```".data)])) = splitSep src := by
  unfold sanitizeLines
  rw [show dropHeadIf isBlankLine (fence :: (splitSep src ++ [("```".data)])) =
      fence :: (splitSep src ++ [("```".data)]) from by
    rw [dropHeadIf_cons, if_neg (by simp [hblank])]]
  rw [show (fence :: (splitSep src ++ [("```".data)]) : List Chars) =
      (fence :: splitSep src) ++ [("```".data)] from by simp]
  rw [dropLastIf_concat, if_neg (by decide)]
  rw [show ((fence :: splitSep src) ++ [("```".data)] : List Chars) =
      fence :: (splitSep src ++ [("```".data)]) from by simp]
  rw [show dropHeadIf isFenceLine (fence :: (splitSep src ++ [("```".data)])) =
      splitSep src ++ [("```".data)] from by
    rw [dropHeadIf_cons, if_pos hfence]]
  rw [dropLastIf_concat, if_pos (by decide)]

theorem splitLines_fence_wrap (fence : Chars) (src : Chars) (h : splitSep fence = [fence]) :
    splitLines (fence ++ '\n' :: (src ++ '\n' :: ("```".data))) =
      fence :: (splitSep src ++ [("```".data)]) := by
  unfold splitLines
  rw [splitSep_append_newline, splitSep_append_newline, h,
    show splitSep ("```".data) = [("```".data)] from rfl]
  unfold stripLastEmpty
  rw [show ([fence] ++ (splitSep src ++ [("```".data)]) : List Chars) =
      (fence :: splitSep src) ++ [("```".data)] from by simp]
  rw [List.getLast?_concat]
  simp

theorem fencedPython_shape (src : Chars) :
    fencedPython src = ("```python".data) ++ '\n' :: (src ++ '\n' :: ("```".data)) := by
  show ("```python\n".data) ++ src ++ ("\n```".data) = _
  rw [show ("```python\n".data : Chars) = ("```python".data) ++ ['\n'] from rfl,
    show ("\n```".data : Chars) = '\n' :: ("```".data) from rfl]
  simp

theorem fencedPlain_shape (src : Chars) :
    fencedPlain src = ("```".data) ++ '\n' :: (src ++ '\n' :: ("```".data)) := by
  show ("```\n".data) ++ src ++ ("\n```".data) = _
  rw [show ("```\n".data : Chars) = ("```".data) ++ ['\n'] from rfl,
    show ("\n```".data : Chars) = '\n' :: ("```".data) from rfl]
  simp

/-- Fence stripping undoes a `python`-tagged fence exactly: the sanitized
text of `"```python\n<src>\n```"` is `src` itself, for every `src`. -/
theorem sanitize_code_fencedPython (src : Chars) : sanitize_code (fencedPython src) = src := by
  rw [fencedPython_shape]
  unfold sanitize_code
  rw [splitLines_fence_wrap ("```python".data) src (by decide),
    sanitizeLines_fence_wrap _ _ (by decide) (by decide)]
  exact joinNL_splitSep src

/-- Fence stripping undoes a bare fence exactly. -/
theorem sanitize_code_fencedPlain (src : Chars) : sanitize_code (fencedPlain src) = src := by
  rw [fencedPlain_shape]
  unfold sanitize_code
  rw [splitLines_fence_wrap ("```".data) src (by decide),
    sanitizeLines_fence_wrap _ _ (by decide) (by decide)]
  exact joinNL_splitSep src

def srcC8 : Chars := ("```\ndef f(): pass".data)

/-- C8 (counterexample): for the source text whose first line is itself a
fence marker, the three synthesis-output forms do not parse to the same
skill set: both fenced forms sanitize back to the text with the stray
fence line, which is a Python syntax error, yielding no skills, while
the bare form has its leading fence line stripped and yields the function
`f`. -/
theorem fence_robustness_counterexample :
    extract_function_definitions miniParse (sanitize_code (fencedPython srcC8)) = []
    ∧ extract_function_definitions miniParse (sanitize_code (fencedPlain srcC8)) = []
    ∧ extract_function_definitions miniParse (sanitize_code srcC8) =
        [⟨("f".data), [], none, ("def f(): pass".data)⟩]
    ∧ ([] : List FuncDef) ≠ [⟨("f".data), [], none, ("def f(): pass".data)⟩] :=
  ⟨by decide, by decide, by decide, by decide⟩

/-- C8 (amended): the two fenced forms `"```python\n<src>\n```"` and
`"```\n<src>\n```"` always sanitize to exactly `src` and therefore yield
the same list of top-level function definitions as each other, for every
source text and every parser; the bare form agrees with them whenever
fence stripping leaves `src` unchanged (its first and last lines neither
blank nor fence markers and no trailing newline), but not for every
source text. -/
theorem fence_robustness_amended :
    (∀ (parse : Chars → Option (List FuncDef)) (src : Chars),
      extract_function_definitions parse (sanitize_code (fencedPython src)) =
        extract_function_definitions parse (sanitize_code (fencedPlain src)))
    ∧ (∀ (parse : Chars → Option (List FuncDef)) (src : Chars),
      sanitize_code src = src →
      extract_function_definitions parse (sanitize_code (fencedPython src)) =
        extract_function_definitions parse (sanitize_code src)) := by
  constructor
  · intro parse src
    rw [sanitize_code_fencedPython, sanitize_code_fencedPlain]
  · intro parse src h
    rw [sanitize_code_fencedPython, h]

/-- C8 (witness): the amended robustness evaluated on the plain function
source `def f(): pass`, which fence stripping leaves unchanged: all three
forms extract the same single function under the concrete mini parser. -/
theorem fence_robustness_amended_witness :
    extract_function_definitions miniParse
        (sanitize_code (fencedPython ("def f(): pass".data))) =
      extract_function_definitions miniParse (sanitize_code (("def f(): pass".data))) :=
  fence_robustness_amended.2 miniParse ("def f(): pass".data) (by decide)

end UDR

